import Mathlib

/-!
Verification of the Monkey lexer/parser core (lexer.go, parser.go, ast.go)
against its specification.  The Go code is shallowly embedded: the mutable
`Lexer` becomes an explicit state record threaded through pure functions,
the `(*Token, error)` multi-returns become sum-typed results, and the
parser's unbounded loop takes a fuel parameter (`none` = the loop did not
finish within the given fuel, for any fuel = divergence).
-/

set_option maxRecDepth 8000

/-- Character constants, written by code point to keep the source ASCII-clean. -/
def nulChar : Char := Char.ofNat 0

def newlineChar : Char := Char.ofNat 10

def lbraceChar : Char := Char.ofNat 123

def rbraceChar : Char := Char.ofNat 125

/-- TokenType from lexer.go: closed enumeration of token kinds. -/
inductive TokenType where
  | ILLEGAL | EOF | IDENT | INT
  | ASSIGN | EQ | NEQ | ADD | SUB | MUL | DIV | NOT | LT | GT
  | SEMICOLON | LPAREN | RPAREN | LBRACE | RBRACE | LSQUARE | RSQUARE | COMMA
  | ELSE | FALSE | FN | IF | LET | RETURN | TRUE
deriving DecidableEq

/-- Token from lexer.go.  Go field `Type` is `typ`, `String` is `text`,
`Int` is `intVal` (Lean keyword clashes); `Line`/`Col` are kept as written
by the code (`Col` is what `newTok` stores, i.e. the Go `col-1`). -/
structure Token where
  typ : TokenType
  file : String
  line : Nat
  col : Nat
  text : String
  intVal : Int
deriving DecidableEq

/-- Lexer state (the mutable fields of struct Lexer in lexer.go).
`input` is the remaining content of the buffered reader.  `nxtrune` keeps
the Go representation exactly: the zero rune is the "no cached rune"
sentinel, so caching U+0000 is indistinguishable from caching nothing. -/
structure LexState where
  filename : String
  input : List Char
  line : Nat
  col : Nat
  currune : Char
  nxtrune : Char
  curtok : Option Token
  nxttok : Option Token
deriving DecidableEq

/-- Structured error messages (the `fmt.Errorf` formats used by the code).
`expectedBangOrMinusButFound` mirrors the literal message of
`Parser.requireTok`, which is hard-coded to name the bang and minus runes
and the found lexeme, independently of the `expTypes` argument. -/
inductive ErrMsg where
  | invalidToken (s : String)
  | expectedBangOrMinusButFound (found : String)
deriving DecidableEq

/-- Errors crossing the lexer/parser API.
`lexPositioned` is lexer.Error (file, line, col, wrapped message);
`strconvErr` is the raw `strconv.ParseInt` error that `readIntTok`
returns unwrapped — note it carries no file, line or column;
`parseErr` is parser.Error (offending token plus message);
`parseErrWrap` is parser.Error wrapping a lexer error (`exprStmt`'s
`p.parseErr(tok, err)` path, where `tok` may be nil). -/
inductive MErr where
  | lexPositioned (file : String) (line col : Nat) (msg : ErrMsg)
  | strconvErr (lit : String)
  | parseErr (tok : Token) (msg : ErrMsg)
  | parseErrWrap (tok : Option Token) (inner : MErr)
deriving DecidableEq

/-- unicode.IsSpace restricted to the code points any claim exercises
(ASCII whitespace plus NEL and NBSP); higher Unicode space classes are
not reachable from any input considered here. -/
def isSpace (c : Char) : Bool :=
  c.val == 9 || c.val == 10 || c.val == 11 || c.val == 12 || c.val == 13 ||
  c.val == 32 || c.val == 133 || c.val == 160

/-- isLetter from lexer.go.  The `r >= utf8.RuneSelf && unicode.IsLetter(r)`
disjunct is not modelled (no claim input contains a rune at or above U+0080). -/
def isLetter (c : Char) : Bool :=
  (97 ≤ c.val && c.val ≤ 122) || (65 ≤ c.val && c.val ≤ 90) || c.val == 95

/-- isDigit from lexer.go; the Unicode-digit disjunct above U+0080 is not
modelled for the same reason as `isLetter`. -/
def isDigit (c : Char) : Bool :=
  48 ≤ c.val && c.val ≤ 57

/-- The runeTokenTypes array: single-rune operator and punctuation tokens. -/
def singleRuneType (c : Char) : Option TokenType :=
  if c = ';' then some .SEMICOLON
  else if c = '+' then some .ADD
  else if c = '-' then some .SUB
  else if c = '*' then some .MUL
  else if c = '/' then some .DIV
  else if c = '<' then some .LT
  else if c = '>' then some .GT
  else if c = '(' then some .LPAREN
  else if c = ')' then some .RPAREN
  else if c = lbraceChar then some .LBRACE
  else if c = rbraceChar then some .RBRACE
  else if c = '[' then some .LSQUARE
  else if c = ']' then some .RSQUARE
  else if c = ',' then some .COMMA
  else none

/-- lookupIdentType: keyword table lookup, defaulting to IDENT. -/
def lookupIdentType (ident : String) : TokenType :=
  if ident = "else" then .ELSE
  else if ident = "false" then .FALSE
  else if ident = "fn" then .FN
  else if ident = "if" then .IF
  else if ident = "let" then .LET
  else if ident = "return" then .RETURN
  else if ident = "true" then .TRUE
  else .IDENT

/-- Position bookkeeping of readRune: column increments, a newline then
bumps the line and resets the column to 1. -/
def advancePos (s : LexState) (r : Char) : LexState :=
  let s := { s with col := s.col + 1 }
  if r = newlineChar then { s with line := s.line + 1, col := 1 } else s

/-- readRune from lexer.go: consume the cached lookahead rune if present
(Go: `l.nxtrune != 0`), else the next input rune; `none` models io.EOF. -/
def readRuneP (s : LexState) : Option Char × LexState :=
  if s.nxtrune ≠ nulChar then
    (some s.nxtrune, advancePos { s with currune := s.nxtrune, nxtrune := nulChar } s.nxtrune)
  else
    match s.input with
    | [] => (none, s)
    | c :: cs => (some c, advancePos { s with currune := c, input := cs } c)

/-- peakRune from lexer.go: return the cached rune, or read one from input
and cache it.  Caching U+0000 stores the sentinel value, exactly as in Go. -/
def peakRuneP (s : LexState) : Option Char × LexState :=
  if s.nxtrune ≠ nulChar then (some s.nxtrune, s)
  else
    match s.input with
    | [] => (none, s)
    | c :: cs => (some c, { s with input := cs, nxtrune := c })

/-- The loop of skipSpace once no rune is cached: peek the head, stop on a
non-space rune (leaving it cached — U+0000 collapses into the sentinel,
exactly as Go caches rune 0), consume spaces with readRune's position
update.  Structural on the input list. -/
def skipSpaceCore (fn : String) (ct nt : Option Token) :
    List Char → Nat → Nat → Char → Bool × LexState
  | [], line, col, cur => (false, ⟨fn, [], line, col, cur, nulChar, ct, nt⟩)
  | c :: cs, line, col, cur =>
    if isSpace c then
      if c = newlineChar then skipSpaceCore fn ct nt cs (line + 1) 1 c
      else skipSpaceCore fn ct nt cs line (col + 1) c
    else (true, ⟨fn, cs, line, col, cur, c, ct, nt⟩)

/-- skipSpace from lexer.go.  The first loop iteration peeks the cached
rune if one is present; afterwards the loop runs on the input list.
Result `false` models the io.EOF return. -/
def skipSpaceP (s : LexState) : Bool × LexState :=
  if s.nxtrune = nulChar then
    skipSpaceCore s.filename s.curtok s.nxttok s.input s.line s.col s.currune
  else if ¬ isSpace s.nxtrune then (true, s)
  else if s.nxtrune = newlineChar then
    skipSpaceCore s.filename s.curtok s.nxttok s.input (s.line + 1) 1 s.nxtrune
  else
    skipSpaceCore s.filename s.curtok s.nxttok s.input s.line (s.col + 1) s.nxtrune

/-- The shared shape of the readIdentTok/readIntTok scan loops once no rune
is cached: peek, stop on EOF or a rune failing the predicate (stopping
caches that rune, again conflating U+0000 with the sentinel), otherwise
consume and collect.  Structural on the input list. -/
def scanCore (p : Char → Bool) (fn : String) (ct nt : Option Token) :
    List Char → Nat → Nat → List Char × LexState
  | [], line, col => ([], ⟨fn, [], line, col, nulChar, nulChar, ct, nt⟩)
  | c :: cs, line, col =>
    if p c then
      if c = newlineChar then
        let r := scanCore p fn ct nt cs (line + 1) 1
        (c :: r.1, r.2)
      else
        let r := scanCore p fn ct nt cs line (col + 1)
        (c :: r.1, r.2)
    else ([], ⟨fn, cs, line, col, nulChar, c, ct, nt⟩)

/-- A consumed scan rune also becomes `currune`; `scanCore` tracks only
line/col, so patch `currune` from the collected runes afterwards. -/
def scanWhileP (p : Char → Bool) (s : LexState) : List Char × LexState :=
  if s.nxtrune = nulChar then
    let r := scanCore p s.filename s.curtok s.nxttok s.input s.line s.col
    (r.1, { r.2 with currune := (r.1.getLast? ).getD s.currune })
  else if p s.nxtrune then
    let first := s.nxtrune
    let col := s.col + 1
    let lc : Nat × Nat := if first = newlineChar then (s.line + 1, 1) else (s.line, col)
    let r := scanCore p s.filename s.curtok s.nxttok s.input lc.1 lc.2
    (first :: r.1, { r.2 with currune := ((first :: r.1).getLast? ).getD s.currune })
  else ([], s)

/-- newTok with the default (0,0) position arguments: the token records the
lexer's current line and `col - 1`. -/
def mkTok (s : LexState) (t : TokenType) (text : String) : Token :=
  ⟨t, s.filename, s.line, s.col - 1, text, 0⟩

/-- The EOF token `newTok(EOF, "", 0, 0)` produces. -/
def eofTok (s : LexState) : Token :=
  mkTok s .EOF ""

/-- lexErr from lexer.go: wraps a message with the lexer's file and its
current line and column (note: `l.col`, not `l.col - 1`). -/
def lexErrAt (s : LexState) (msg : ErrMsg) : MErr :=
  .lexPositioned s.filename s.line s.col msg

/-- Result of readTok, mirroring the Go `(*Token, error)` pair: `ok` is
(token, nil); `tokErr` is the ILLEGAL case where both a token and an error
are returned; `err` is (nil, error) — the unwrapped strconv failure. -/
inductive ReadRes where
  | ok (t : Token) (s : LexState)
  | tokErr (t : Token) (e : MErr) (s : LexState)
  | err (e : MErr) (s : LexState)
deriving DecidableEq

/-- strconv.ParseInt(s, 10, 64): succeeds on a nonempty all-ASCII-digit
string whose value fits in int64, errors otherwise (range or syntax).
The scanned strings here never carry a sign. -/
def parseInt64 (str : String) : Option Int :=
  if str.data ≠ [] ∧ str.data.all (fun c => 48 ≤ c.val && c.val ≤ 57) then
    let v : Nat := str.data.foldl (fun acc c => acc * 10 + (c.toNat - 48)) 0
    if v < 2 ^ 63 then some (v : Int) else none
  else none

/-- readIdentTok from lexer.go, entered with the first letter already read
into `currune`: record `startCol = col - 1`, scan letters/digits, classify
through the keyword table, and overwrite the token column with `startCol`. -/
def readIdentTokP (s : LexState) : ReadRes :=
  let startCol := s.col - 1
  let r := scanWhileP (fun c => isLetter c || isDigit c) s
  let ident := String.mk (s.currune :: r.1)
  let tt := lookupIdentType ident
  .ok ⟨tt, r.2.filename, r.2.line, startCol, ident, 0⟩ r.2

/-- readIntTok from lexer.go, entered with the first digit already read
into `currune`.  On ParseInt failure the raw error is returned — not
wrapped by `lexErr`, so it carries no file, line or column. -/
def readIntTokP (s : LexState) : ReadRes :=
  let startCol := s.col - 1
  let r := scanWhileP isDigit s
  let str := String.mk (s.currune :: r.1)
  match parseInt64 str with
  | none => .err (.strconvErr str) r.2
  | some i => .ok ⟨.INT, r.2.filename, r.2.line, startCol, str, i⟩ r.2

/-- readTok from lexer.go. -/
def readTokP (s : LexState) : ReadRes :=
  match skipSpaceP s with
  | (false, s₁) => .ok (eofTok s₁) s₁
  | (true, s₁) =>
    match readRuneP s₁ with
    | (none, s₂) => .ok (eofTok s₂) s₂
    | (some r, s₂) =>
      match singleRuneType r with
      | some tt => .ok (mkTok s₂ tt (String.mk [r])) s₂
      | none =>
        if r = '=' then
          let pr := peakRuneP s₂
          let r2 := pr.1.getD nulChar
          if r2 = '=' then
            let line := pr.2.line
            let col := pr.2.col
            let s₄ := (readRuneP pr.2).2
            .ok ⟨.EQ, s₄.filename, line, col - 1, "==", 0⟩ s₄
          else .ok (mkTok pr.2 .ASSIGN "=") pr.2
        else if r = '!' then
          let pr := peakRuneP s₂
          let r2 := pr.1.getD nulChar
          if r2 = '=' then
            let line := pr.2.line
            let col := pr.2.col
            let s₄ := (readRuneP pr.2).2
            .ok ⟨.NEQ, s₄.filename, line, col - 1, "!=", 0⟩ s₄
          else .ok (mkTok pr.2 .NOT "!") pr.2
        else if isLetter r then readIdentTokP s₂
        else if isDigit r then readIntTokP s₂
        else .tokErr (mkTok s₂ .ILLEGAL (String.mk [r]))
              (lexErrAt s₂ (.invalidToken (String.mk [r]))) s₂

/-- Lexer.Next: serve the buffered token if present, else readTok; on
success the token also becomes `curtok`. -/
def nextT (s : LexState) : Except MErr Token × LexState :=
  match s.nxttok with
  | some tk => (.ok tk, { s with nxttok := none, curtok := some tk })
  | none =>
    match readTokP s with
    | .ok t s' => (.ok t, { s' with curtok := some t })
    | .tokErr _ e s' => (.error e, s')
    | .err e s' => (.error e, s')

/-- Lexer.Peek: serve the buffered token if present, else readTok and
buffer the result. -/
def peekT (s : LexState) : Except MErr Token × LexState :=
  match s.nxttok with
  | some tk => (.ok tk, s)
  | none =>
    match readTokP s with
    | .ok t s' => (.ok t, { s' with nxttok := some t })
    | .tokErr _ e s' => (.error e, s')
    | .err e s' => (.error e, s')

/-- lexer.New over an in-memory source: line 1, column 1, nothing cached. -/
def initLex (filename : String) (code : List Char) : LexState :=
  ⟨filename, code, 1, 1, nulChar, nulChar, none, none⟩

/-- Run `Next` a fixed number of times, collecting each result. -/
def lexN : Nat → LexState → List (Except MErr Token)
  | 0, _ => []
  | n + 1, s =>
    let r := nextT s
    r.1 :: lexN n r.2

/-- IdentExpr from ast.go: `Value` is copied from the token lexeme. -/
structure IdentExpr where
  tok : Token
  value : String
deriving DecidableEq

/-- Expression variants from ast.go.  Go interface values may be nil, so
an operand is an `Option Expression`; a nil `Expression` elsewhere is
likewise `Option`. -/
inductive Expression where
  | identE (e : IdentExpr)
  | intLit (tok : Token) (value : Int)
  | prefixE (tok : Token) (op : String) (operand : Option Expression)

/-- Statement variants from ast.go.  `LetStmt.Name` is a pointer in Go and
can be nil (letStmt discards the identExpr error), hence `Option`. -/
inductive Statement where
  | letS (tok : Token) (name : Option IdentExpr) (value : Option Expression)
  | returnS (tok : Token) (value : Option Expression)
  | exprS (tok : Token) (e : Option Expression)

/-- Program from ast.go. -/
structure Program where
  statements : List Statement

/-- Expression.String from ast.go.  Calling String on a nil Expression
panics in Go (PrefixExpr.String does not nil-check its operand), modelled
as `none`. -/
def exprString : Expression → Option String
  | .identE e => some e.value
  | .intLit tok _ => some tok.text
  | .prefixE _ op operand =>
    match operand with
    | none => none
    | some e =>
      match exprString e with
      | none => none
      | some str => some (op ++ str)

/-- Statement.String from ast.go.  LetStmt renders a nil Value as
"<nil-expr>" but panics on a nil Name; ReturnStmt/ExprStmt render a nil
value as "<nil-expr-stmt>". -/
def stmtString : Statement → Option String
  | .letS tok name value =>
    match name with
    | none => none
    | some n =>
      let valueStr : Option String :=
        match value with
        | none => some "<nil-expr>"
        | some e => exprString e
      match valueStr with
      | none => none
      | some v => some (tok.text ++ " " ++ n.value ++ " = " ++ v ++ ";")
  | .returnS tok value =>
    let valueStr : Option String :=
      match value with
      | none => some "<nil-expr-stmt>"
      | some e => exprString e
    match valueStr with
    | none => none
    | some v => some (tok.text ++ " " ++ v ++ ";")
  | .exprS _ e =>
    match e with
    | none => some "<nil-expr-stmt>;"
    | some ex =>
      match exprString ex with
      | none => none
      | some str => some (str ++ ";")

/-- Program.String from ast.go: each statement on its own line. -/
def progString (p : Program) : Option String :=
  p.statements.foldl
    (fun acc stmt =>
      match acc, stmtString stmt with
      | some a, some b => some (a ++ b ++ String.mk [newlineChar])
      | _, _ => none)
    (some "")

/-- The precedence constants of parser.go (`expr` receives but never reads
them: no infix rule is ever registered, so the climbing loop is absent). -/
def LOWEST : Nat := 1

def PREFIXPREC : Nat := 6

/-- The prefixParseFns table built by parser.New, as a selector.  Entries
exist for IDENT, INT, SUB and NOT only.  (The Go arrays have length
MAXTOKTYPE = 28, so indexing with lexer.TRUE would panic out of range;
no claim exercises that.)  infixParseFns is never populated nor read. -/
inductive PFn where
  | identFn | intFn | prefixFn
deriving DecidableEq

def prefixSel : TokenType → Option PFn
  | .IDENT => some .identFn
  | .INT => some .intFn
  | .SUB => some .prefixFn
  | .NOT => some .prefixFn
  | _ => none

/-- Parser.requireTok: Next a token, accept it when its type is expected;
otherwise a parser error positioned at that token whose message is the
hard-coded bang-or-minus format over the found lexeme. -/
def requireTokP (expTypes : List TokenType) (s : LexState) :
    Except MErr Token × LexState :=
  match nextT s with
  | (.error e, s₁) => (.error e, s₁)
  | (.ok tok, s₁) =>
    if expTypes.contains tok.typ then (.ok tok, s₁)
    else (.error (.parseErr tok (.expectedBangOrMinusButFound tok.text)), s₁)

/-- Parser.optionalTok: Peek; consume and return the token when it matches,
else return nothing without consuming (the Next result is discarded). -/
def optionalTokP (expType : TokenType) (s : LexState) :
    Except MErr (Option Token) × LexState :=
  match peekT s with
  | (.error e, s₁) => (.error e, s₁)
  | (.ok tok, s₁) =>
    if tok.typ = expType then
      let r := nextT s₁
      (.ok (some tok), r.2)
    else (.ok none, s₁)

/-- Parser.identExpr: requireTok(IDENT) and build an IdentExpr. -/
def identExprP (s : LexState) : Except MErr IdentExpr × LexState :=
  match requireTokP [.IDENT] s with
  | (.error e, s₁) => (.error e, s₁)
  | (.ok tok, s₁) => (.ok ⟨tok, tok.text⟩, s₁)

/-- Parser.intLiteralExpr: requireTok(INT) and build an IntLiteralExpr. -/
def intLitExprP (s : LexState) : Except MErr Expression × LexState :=
  match requireTokP [.INT] s with
  | (.error e, s₁) => (.error e, s₁)
  | (.ok tok, s₁) => (.ok (.intLit tok tok.intVal), s₁)

/-- Parser.expr (with Parser.prefixExpr inlined for the SUB/NOT entries).
The precedence argument is carried but never consulted, as in the code.
When the peeked token type has no prefix rule the function returns a nil
expression AND a nil error (`return nil, nil`) — the commented-out
error construction in Parse's default branch never runs.  `none` on the
outside means the fuel ran out. -/
def exprP : Nat → Nat → LexState → Option (Except MErr (Option Expression) × LexState)
  | 0, _, _ => none
  | fuel + 1, _pr, s =>
    match peekT s with
    | (.error e, s₁) => some (.error e, s₁)
    | (.ok tok, s₁) =>
      match prefixSel tok.typ with
      | none => some (.ok none, s₁)
      | some .identFn =>
        match identExprP s₁ with
        | (.error e, s₂) => some (.error e, s₂)
        | (.ok e, s₂) => some (.ok (some (.identE e)), s₂)
      | some .intFn =>
        match intLitExprP s₁ with
        | (.error e, s₂) => some (.error e, s₂)
        | (.ok e, s₂) => some (.ok (some e), s₂)
      | some .prefixFn =>
        match requireTokP [.NOT, .SUB] s₁ with
        | (.error e, s₂) => some (.error e, s₂)
        | (.ok tok₂, s₂) =>
          match exprP fuel PREFIXPREC s₂ with
          | none => none
          | some (.error e, s₃) => some (.error e, s₃)
          | some (.ok e?, s₃) =>
            some (.ok (some (.prefixE tok₂ tok₂.text e?)), s₃)

/-- Parser.letStmt.  The error from identExpr is overwritten unchecked
(`name, err := p.identExpr()` immediately followed by
`_, err = p.requireTok(lexer.ASSIGN)`), so a failed name leaves a nil
Name and parsing continues. -/
def letStmtP (fuel : Nat) (s : LexState) :
    Option (Except MErr Statement × LexState) :=
  match requireTokP [.LET] s with
  | (.error e, s₁) => some (.error e, s₁)
  | (.ok letTok, s₁) =>
    let nameR := identExprP s₁
    let name : Option IdentExpr := nameR.1.toOption
    match requireTokP [.ASSIGN] nameR.2 with
    | (.error e, s₃) => some (.error e, s₃)
    | (.ok _, s₃) =>
      match exprP fuel LOWEST s₃ with
      | none => none
      | some (.error e, s₄) => some (.error e, s₄)
      | some (.ok value, s₄) =>
        match optionalTokP .SEMICOLON s₄ with
        | (.error e, s₅) => some (.error e, s₅)
        | (.ok _, s₅) => some (.ok (.letS letTok name value), s₅)

/-- Parser.returnStmt. -/
def returnStmtP (fuel : Nat) (s : LexState) :
    Option (Except MErr Statement × LexState) :=
  match requireTokP [.RETURN] s with
  | (.error e, s₁) => some (.error e, s₁)
  | (.ok returnTok, s₁) =>
    match exprP fuel LOWEST s₁ with
    | none => none
    | some (.error e, s₂) => some (.error e, s₂)
    | some (.ok value, s₂) =>
      match optionalTokP .SEMICOLON s₂ with
      | (.error e, s₃) => some (.error e, s₃)
      | (.ok _, s₃) => some (.ok (.returnS returnTok value), s₃)

/-- Parser.exprStmt (its debug Printf is incidental output, not modelled).
A failing Peek is wrapped by parseErr with the nil token. -/
def exprStmtP (fuel : Nat) (s : LexState) :
    Option (Except MErr Statement × LexState) :=
  match peekT s with
  | (.error e, s₁) => some (.error (.parseErrWrap none e), s₁)
  | (.ok tok, s₁) =>
    match exprP fuel LOWEST s₁ with
    | none => none
    | some (.error e, s₂) => some (.error e, s₂)
    | some (.ok e?, s₂) =>
      match optionalTokP .SEMICOLON s₂ with
      | (.error e, s₃) => some (.error e, s₃)
      | (.ok _, s₃) => some (.ok (.exprS tok e?), s₃)

/-- The statement loop of Parser.Parse.  One unit of fuel per iteration;
`none` for every fuel is how the model renders a non-terminating loop.
The built statement is always non-nil on success, so `AddStmt` always
runs. -/
def parseLoopP : Nat → LexState → List Statement →
    Option (Except MErr Program × LexState)
  | 0, _, _ => none
  | fuel + 1, s, stmts =>
    match peekT s with
    | (.error e, s₁) => some (.error e, s₁)
    | (.ok tok, s₁) =>
      match tok.typ with
      | .LET =>
        match letStmtP fuel s₁ with
        | none => none
        | some (.error e, s₂) => some (.error e, s₂)
        | some (.ok stmt, s₂) => parseLoopP fuel s₂ (stmts ++ [stmt])
      | .RETURN =>
        match returnStmtP fuel s₁ with
        | none => none
        | some (.error e, s₂) => some (.error e, s₂)
        | some (.ok stmt, s₂) => parseLoopP fuel s₂ (stmts ++ [stmt])
      | .EOF => some (.ok ⟨stmts⟩, s₁)
      | _ =>
        match exprStmtP fuel s₁ with
        | none => none
        | some (.error e, s₂) => some (.error e, s₂)
        | some (.ok stmt, s₂) => parseLoopP fuel s₂ (stmts ++ [stmt])

/-- parser.Parse over an in-memory string: a fresh lexer named "" and an
empty program. -/
def ParseP (fuel : Nat) (code : List Char) : Option (Except MErr Program) :=
  match parseLoopP fuel (initLex "" code) [] with
  | none => none
  | some (r, _) => some r

/-- The ADD token lexed from the input consisting of a plus rune. -/
def addTok : Token := ⟨.ADD, "", 1, 1, "+", 0⟩

/-- Parser state after Parse's first Peek on input "+": the ADD token is
buffered and nothing past it remains.  Every loop iteration from here
consumes no token (expr returns a nil expression with a nil error and
optionalTok does not match), so the state reproduces itself. -/
def sPlusStuck : LexState := ⟨"", [], 1, 2, '+', nulChar, none, some addTok⟩

lemma parseLoop_stuck_plus : ∀ n ss, parseLoopP n sPlusStuck ss = none := by
  intro n
  induction n with
  | zero => intro ss; rfl
  | succ k ih =>
    intro ss
    cases k with
    | zero => rfl
    | succ m =>
      have hstep : parseLoopP (m + 1 + 1) sPlusStuck ss
          = parseLoopP (m + 1) sPlusStuck (ss ++ [Statement.exprS addTok none]) := rfl
      rw [hstep]
      exact ih _

/-- Claim C2 (code bug): on input "+" — whose first token has no registered
prefix rule and is not LET, RETURN or EOF — Parser.Parse neither returns a
Program nor an error: the statement loop consumes no token and repeats
forever.  In the fuel model, the parse comes back unfinished for every
fuel bound, which is exactly non-termination of the unbounded Go loop. -/
theorem parse_diverges_on_plus : ∀ fuel, ParseP fuel "+".data = none := by
  intro fuel
  cases fuel with
  | zero => rfl
  | succ k =>
    cases k with
    | zero => rfl
    | succ m =>
      have h1 : parseLoopP (m + 1 + 1) (initLex "" "+".data) []
          = parseLoopP (m + 1) sPlusStuck [Statement.exprS addTok none] := rfl
      unfold ParseP
      rw [h1, parseLoop_stuck_plus]

/-- Claim C3 (code bug): in expression position on the ADD token (no prefix
rule registered), Parser.expr returns a nil expression together with a nil
error (`return nil, nil`): no "no prefix rule for token kind X" parse
error exists anywhere in the code (the error construction in Parse's
default branch is commented out). -/
theorem expr_nil_nil_on_unregistered_token :
    exprP 5 LOWEST (initLex "" "+".data) = some (.ok none, sPlusStuck) := rfl

/-- Claim C4 (code bug): on input "let x = ", which hits EOF where the let
value expression is required, Parse reports no end-of-input error at all:
it returns a successfully parsed Program containing a LetStmt whose Value
is nil — precisely the silently missing sub-expression the claim rules
out. -/
theorem parse_accepts_let_with_missing_value :
    ParseP 10 "let x = ".data
      = some (.ok ⟨[.letS ⟨.LET, "", 1, 1, "let", 0⟩
          (some ⟨⟨.IDENT, "", 1, 5, "x", 0⟩, "x"⟩) none]⟩) := rfl

/-- Claim C5 (code bug): parsing "let x 5;" does fail with a parser error
positioned at the offending INT token (line 1, column 7), and no partial
program is returned — but the message is requireTok's hard-coded
"expected bang or minus but found: 5" format: it names neither ASSIGN nor
the found token's kind, only the found lexeme. -/
theorem let_missing_assign_error_shape :
    ParseP 10 "let x 5;".data
      = some (.error (.parseErr ⟨.INT, "", 1, 7, "5", 5⟩
          (.expectedBangOrMinusButFound "5"))) := rfl

/-- Claim C9 (code bug): a lone NUL rune (U+0000) is silently swallowed —
lexing it yields only EOF tokens and no error, because peakRune caches the
read rune in a field whose zero value means "nothing cached".  For
contrast, an ordinary unmatched rune such as the at-sign does produce the
ILLEGAL token together with a positioned lex error. -/
theorem nul_rune_silently_skipped :
    lexN 2 (initLex "" [nulChar])
        = [.ok ⟨.EOF, "", 1, 0, "", 0⟩, .ok ⟨.EOF, "", 1, 0, "", 0⟩]
    ∧ readTokP (initLex "" ['@'])
        = .tokErr ⟨.ILLEGAL, "", 1, 1, "@", 0⟩
            (.lexPositioned "" 1 2 (.invalidToken "@"))
            ⟨"", [], 1, 2, '@', nulChar, none, none⟩ := ⟨rfl, rfl⟩

/-- Claim C10 (code bug): integer scanning does take the maximal digit run
and store a signed 64-bit value (shown at the largest int64), but on
overflow readIntTok returns the raw strconv.ParseInt error unwrapped: the
`strconvErr` value carries the literal only — no source name, no line, no
column. -/
theorem int_overflow_error_carries_no_position :
    (∃ s', readTokP (initLex "f.mky" "99999999999999999999".data)
        = .err (.strconvErr "99999999999999999999") s')
    ∧ (∃ s', readTokP (initLex "f.mky" "9223372036854775807".data)
        = .ok ⟨.INT, "f.mky", 1, 1, "9223372036854775807", 9223372036854775807⟩ s') :=
  ⟨⟨_, rfl⟩, ⟨_, rfl⟩⟩

/-- The Program Parse builds for "let x = ": one LetStmt with a nil Value. -/
def letNilProg : Program :=
  ⟨[.letS ⟨.LET, "", 1, 1, "let", 0⟩ (some ⟨⟨.IDENT, "", 1, 5, "x", 0⟩, "x"⟩) none]⟩

/-- What Program.String renders for `letNilProg`. -/
def letNilRender : String := "let x = <nil-expr>;" ++ String.mk [newlineChar]

/-- The LT token produced for the left angle bracket of "<nil-expr>". -/
def ltTok : Token := ⟨.LT, "", 1, 9, "<", 0⟩

/-- Parser state after re-parsing `letNilRender` through its let statement:
the LT token (for which no prefix rule exists) is buffered and the
statement loop no longer consumes anything, reproducing this state. -/
def sLetStuck : LexState :=
  ⟨"", ['n', 'i', 'l', '-', 'e', 'x', 'p', 'r', '>', ';', newlineChar],
   1, 10, '<', nulChar, some ⟨.ASSIGN, "", 1, 7, "=", 0⟩, some ltTok⟩

lemma parseLoop_stuck_lt : ∀ n ss, parseLoopP n sLetStuck ss = none := by
  intro n
  induction n with
  | zero => intro ss; rfl
  | succ k ih =>
    intro ss
    cases k with
    | zero => rfl
    | succ m =>
      have hstep : parseLoopP (m + 1 + 1) sLetStuck ss
          = parseLoopP (m + 1) sLetStuck (ss ++ [Statement.exprS ltTok none]) := rfl
      rw [hstep]
      exact ih _

/-- Claim C1 (code bug): the round-trip law fails.  Parse accepts
"let x = " (returning `letNilProg`, whose LetStmt has a nil Value);
rendering it yields "let x = <nil-expr>;" plus a newline; and re-parsing
that rendered string never returns — the LT token of "<nil-expr>" has no
prefix rule, so the statement loop stops consuming input and runs forever
(unfinished at every fuel bound). -/
theorem roundtrip_fails_on_accepted_program :
    ParseP 10 "let x = ".data = some (.ok letNilProg)
    ∧ progString letNilProg = some letNilRender
    ∧ ∀ fuel, ParseP fuel letNilRender.data = none := by
  refine ⟨rfl, rfl, ?_⟩
  intro fuel
  cases fuel with
  | zero => rfl
  | succ k =>
    cases k with
    | zero => rfl
    | succ m =>
      have h1 : parseLoopP (m + 1 + 1) (initLex "" letNilRender.data) []
          = parseLoopP (m + 1) sLetStuck
              [Statement.letS ⟨.LET, "", 1, 1, "let", 0⟩
                (some ⟨⟨.IDENT, "", 1, 5, "x", 0⟩, "x"⟩) none] := rfl
      unfold ParseP
      rw [h1, parseLoop_stuck_lt]

/-- Claim C6 (confirmed): from any lexer state, a successful Peek buffers
the token it returns, so a second Peek returns the identical token and
leaves the state untouched (hence Peek is idempotent under repetition),
and a Next immediately after returns exactly the peeked token. -/
theorem peek_idempotent_next_consistent (s : LexState) (t : Token) (s₁ : LexState)
    (h : peekT s = (.ok t, s₁)) :
    peekT s₁ = (.ok t, s₁) ∧ (nextT s₁).1 = .ok t := by
  have hx : s₁.nxttok = some t := by
    unfold peekT at h
    cases hn : s.nxttok with
    | some tk =>
      rw [hn] at h
      injection h with h1 h2
      injection h1 with h1
      rw [← h2, hn, h1]
    | none =>
      rw [hn] at h
      cases hr : readTokP s with
      | ok t' s' =>
        rw [hr] at h
        injection h with h1 h2
        injection h1 with h1
        rw [← h2, h1]
      | tokErr t' e s' =>
        rw [hr] at h
        injection h with h1 h2
        exact absurd h1 (by simp)
      | err e s' =>
        rw [hr] at h
        injection h with h1 h2
        exact absurd h1 (by simp)
  constructor
  · unfold peekT
    rw [hx]
  · unfold nextT
    rw [hx]

/-- Witness for the Peek/Next contract at a concrete input. -/
theorem peek_idempotent_next_consistent_witness :
    peekT ⟨"", [], 1, 2, 'x', nulChar, none,
        some ⟨.IDENT, "", 1, 1, "x", 0⟩⟩
      = (.ok ⟨.IDENT, "", 1, 1, "x", 0⟩,
         ⟨"", [], 1, 2, 'x', nulChar, none, some ⟨.IDENT, "", 1, 1, "x", 0⟩⟩)
    ∧ (nextT ⟨"", [], 1, 2, 'x', nulChar, none,
        some ⟨.IDENT, "", 1, 1, "x", 0⟩⟩).1 = .ok ⟨.IDENT, "", 1, 1, "x", 0⟩ :=
  peek_idempotent_next_consistent (initLex "" ['x']) ⟨.IDENT, "", 1, 1, "x", 0⟩ _ rfl

/-- A Next or Peek call, for stating properties over call sequences. -/
inductive LexOp where
  | nextOp | peekOp

def stepOp : LexOp → LexState → Except MErr Token × LexState
  | .nextOp, s => nextT s
  | .peekOp, s => peekT s

/-- Run a sequence of Next/Peek calls, collecting every result. -/
def runOps : List LexOp → LexState → List (Except MErr Token)
  | [], _ => []
  | op :: rest, s =>
    let r := stepOp op s
    r.1 :: runOps rest r.2

/-- The lexer has reached end of input and `t` is its EOF token: nothing
remains to read, no rune is cached, the token buffer is empty or holds
`t` itself, and `t` is the EOF token minted at the current position. -/
def atEOF (s : LexState) (t : Token) : Prop :=
  s.input = [] ∧ s.nxtrune = nulChar ∧
  (s.nxttok = none ∨ s.nxttok = some t) ∧ t = eofTok s

/-- A buffered token of kind EOF can only have been cached at end of
input, with the position the lexer still holds.  This holds for every
state reachable through New/Next/Peek. -/
def wfCache (s : LexState) : Prop :=
  ∀ tk, s.nxttok = some tk → tk.typ = .EOF →
    s.input = [] ∧ s.nxtrune = nulChar ∧ tk = eofTok s

lemma skipSpaceCore_false (fn : String) (ct nt : Option Token) :
    ∀ inp line col cur s₁,
      skipSpaceCore fn ct nt inp line col cur = (false, s₁) →
      s₁.input = [] ∧ s₁.nxtrune = nulChar := by
  intro inp
  induction inp with
  | nil =>
    intro line col cur s₁ h
    injection h with _ h2
    rw [← h2]
    exact ⟨rfl, rfl⟩
  | cons c cs ih =>
    intro line col cur s₁ h
    simp only [skipSpaceCore] at h
    by_cases hs : isSpace c
    · by_cases hnl : c = newlineChar
      · rw [if_pos hs, if_pos hnl] at h
        exact ih _ _ _ _ h
      · rw [if_pos hs, if_neg hnl] at h
        exact ih _ _ _ _ h
    · rw [if_neg hs] at h
      simp at h

lemma skipSpaceCore_nxttok (fn : String) (ct nt : Option Token) :
    ∀ inp line col cur,
      ((skipSpaceCore fn ct nt inp line col cur).2).nxttok = nt := by
  intro inp
  induction inp with
  | nil => intro line col cur; rfl
  | cons c cs ih =>
    intro line col cur
    simp only [skipSpaceCore]
    by_cases hs : isSpace c
    · by_cases hnl : c = newlineChar
      · rw [if_pos hs, if_pos hnl]; exact ih _ _ _
      · rw [if_pos hs, if_neg hnl]; exact ih _ _ _
    · rw [if_neg hs]

lemma skipSpaceP_false (s : LexState) (s₁ : LexState)
    (h : skipSpaceP s = (false, s₁)) :
    s₁.input = [] ∧ s₁.nxtrune = nulChar ∧ s₁.nxttok = s.nxttok := by
  unfold skipSpaceP at h
  by_cases h0 : s.nxtrune = nulChar
  · rw [if_pos h0] at h
    refine ⟨(skipSpaceCore_false _ _ _ _ _ _ _ _ h).1,
      (skipSpaceCore_false _ _ _ _ _ _ _ _ h).2, ?_⟩
    have := skipSpaceCore_nxttok s.filename s.curtok s.nxttok s.input s.line s.col s.currune
    rw [h] at this
    exact this
  · rw [if_neg h0] at h
    by_cases hs : isSpace s.nxtrune
    · rw [if_neg (by simpa using hs)] at h
      by_cases hnl : s.nxtrune = newlineChar
      · rw [if_pos hnl] at h
        refine ⟨(skipSpaceCore_false _ _ _ _ _ _ _ _ h).1,
          (skipSpaceCore_false _ _ _ _ _ _ _ _ h).2, ?_⟩
        have := skipSpaceCore_nxttok s.filename s.curtok s.nxttok s.input (s.line + 1) 1 s.nxtrune
        rw [h] at this
        exact this
      · rw [if_neg hnl] at h
        refine ⟨(skipSpaceCore_false _ _ _ _ _ _ _ _ h).1,
          (skipSpaceCore_false _ _ _ _ _ _ _ _ h).2, ?_⟩
        have := skipSpaceCore_nxttok s.filename s.curtok s.nxttok s.input s.line (s.col + 1) s.nxtrune
        rw [h] at this
        exact this
    · rw [if_pos (by simpa using hs)] at h
      simp at h


lemma singleRuneType_ne_EOF (c : Char) (tt : TokenType)
    (h : singleRuneType c = some tt) : tt ≠ .EOF := by
  intro hEOF
  subst hEOF
  unfold singleRuneType at h
  by_cases h1 : c = ';'
  · rw [if_pos h1] at h
    exact TokenType.noConfusion (Option.some.inj h)
  rw [if_neg h1] at h
  by_cases h2 : c = '+'
  · rw [if_pos h2] at h
    exact TokenType.noConfusion (Option.some.inj h)
  rw [if_neg h2] at h
  by_cases h3 : c = '-'
  · rw [if_pos h3] at h
    exact TokenType.noConfusion (Option.some.inj h)
  rw [if_neg h3] at h
  by_cases h4 : c = '*'
  · rw [if_pos h4] at h
    exact TokenType.noConfusion (Option.some.inj h)
  rw [if_neg h4] at h
  by_cases h5 : c = '/'
  · rw [if_pos h5] at h
    exact TokenType.noConfusion (Option.some.inj h)
  rw [if_neg h5] at h
  by_cases h6 : c = '<'
  · rw [if_pos h6] at h
    exact TokenType.noConfusion (Option.some.inj h)
  rw [if_neg h6] at h
  by_cases h7 : c = '>'
  · rw [if_pos h7] at h
    exact TokenType.noConfusion (Option.some.inj h)
  rw [if_neg h7] at h
  by_cases h8 : c = '('
  · rw [if_pos h8] at h
    exact TokenType.noConfusion (Option.some.inj h)
  rw [if_neg h8] at h
  by_cases h9 : c = ')'
  · rw [if_pos h9] at h
    exact TokenType.noConfusion (Option.some.inj h)
  rw [if_neg h9] at h
  by_cases h10 : c = lbraceChar
  · rw [if_pos h10] at h
    exact TokenType.noConfusion (Option.some.inj h)
  rw [if_neg h10] at h
  by_cases h11 : c = rbraceChar
  · rw [if_pos h11] at h
    exact TokenType.noConfusion (Option.some.inj h)
  rw [if_neg h11] at h
  by_cases h12 : c = '['
  · rw [if_pos h12] at h
    exact TokenType.noConfusion (Option.some.inj h)
  rw [if_neg h12] at h
  by_cases h13 : c = ']'
  · rw [if_pos h13] at h
    exact TokenType.noConfusion (Option.some.inj h)
  rw [if_neg h13] at h
  by_cases h14 : c = ','
  · rw [if_pos h14] at h
    exact TokenType.noConfusion (Option.some.inj h)
  rw [if_neg h14] at h
  exact Option.noConfusion h

lemma readRuneP_none (s : LexState) (s₂ : LexState)
    (h : readRuneP s = (none, s₂)) :
    s₂ = s ∧ s.input = [] ∧ s.nxtrune = nulChar := by
  unfold readRuneP at h
  by_cases h0 : s.nxtrune ≠ nulChar
  · rw [if_pos h0] at h
    simp at h
  · rw [if_neg h0] at h
    push_neg at h0
    cases hin : s.input with
    | nil =>
      rw [hin] at h
      injection h with _ h2
      exact ⟨h2.symm, rfl, h0⟩
    | cons c cs =>
      rw [hin] at h
      simp at h

lemma lookupIdentType_ne_EOF (str : String) : lookupIdentType str ≠ .EOF := by
  intro h
  unfold lookupIdentType at h
  split_ifs at h

lemma readTok_eof_state (s : LexState) (t : Token) (s' : LexState)
    (h : readTokP s = .ok t s') (ht : t.typ = .EOF) :
    s'.input = [] ∧ s'.nxtrune = nulChar ∧ s'.nxttok = s.nxttok ∧ t = eofTok s' := by
  unfold readTokP at h
  split at h
  · rename_i s₁ heq
    injection h with h1 h2
    obtain ⟨hi, hx, hn⟩ := skipSpaceP_false s s₁ heq
    subst h2
    exact ⟨hi, hx, hn, h1.symm⟩
  · rename_i s₁ heq
    split at h
    · rename_i s₂ heq2
      injection h with h1 h2
      obtain ⟨he, hi, hx⟩ := readRuneP_none s₁ s₂ heq2
      subst h2
      subst he
      have hn : (skipSpaceP s).2.nxttok = s.nxttok := by
        unfold skipSpaceP
        split_ifs <;>
          first
            | exact skipSpaceCore_nxttok _ _ _ _ _ _ _
            | rfl
      rw [heq] at hn
      exact ⟨hi, hx, hn, h1.symm⟩
    · rename_i r s₂ heq2
      split at h
      · rename_i tt hsr
        injection h with h1 h2
        rw [← h1] at ht
        exact absurd ht (singleRuneType_ne_EOF r tt hsr)
      · rename_i hsr
        by_cases hre : r = '='
        · rw [if_pos hre] at h
          dsimp only at h
          by_cases hp : ((peakRuneP s₂).1.getD nulChar) = '='
          · rw [if_pos hp] at h
            injection h with h1 h2
            rw [← h1] at ht
            exact absurd ht (by intro hc; exact TokenType.noConfusion hc)
          · rw [if_neg hp] at h
            injection h with h1 h2
            rw [← h1] at ht
            exact absurd ht (by intro hc; exact TokenType.noConfusion hc)
        · rw [if_neg hre] at h
          by_cases hrb : r = '!'
          · rw [if_pos hrb] at h
            dsimp only at h
            by_cases hp : ((peakRuneP s₂).1.getD nulChar) = '='
            · rw [if_pos hp] at h
              injection h with h1 h2
              rw [← h1] at ht
              exact absurd ht (by intro hc; exact TokenType.noConfusion hc)
            · rw [if_neg hp] at h
              injection h with h1 h2
              rw [← h1] at ht
              exact absurd ht (by intro hc; exact TokenType.noConfusion hc)
          · rw [if_neg hrb] at h
            by_cases hl : isLetter r
            · rw [if_pos hl] at h
              unfold readIdentTokP at h
              injection h with h1 h2
              rw [← h1] at ht
              dsimp only at ht
              exact absurd ht (lookupIdentType_ne_EOF _)
            · rw [if_neg hl] at h
              by_cases hd : isDigit r
              · rw [if_pos hd] at h
                unfold readIntTokP at h
                dsimp only at h
                split at h
                · exact ReadRes.noConfusion h
                · injection h with h1 h2
                  rw [← h1] at ht
                  exact absurd ht (by intro hc; exact TokenType.noConfusion hc)
              · rw [if_neg hd] at h
                exact ReadRes.noConfusion h

lemma readTok_at_eof (s : LexState) (h1 : s.input = []) (h2 : s.nxtrune = nulChar) :
    readTokP s = .ok (eofTok s) s := by
  obtain ⟨fn, inp, line, col, cur, nxt, ct, nt⟩ := s
  simp only at h1 h2
  subst h1
  subst h2
  rfl

lemma step_preserves_eof (op : LexOp) (s : LexState) (t : Token) (h : atEOF s t) :
    ∃ s₂, stepOp op s = (.ok t, s₂) ∧ atEOF s₂ t := by
  obtain ⟨fn, inp, line, col, cur, nxt, ct, nt⟩ := s
  obtain ⟨hi, hx, hnt, htok⟩ := h
  dsimp only at hi hx hnt
  subst hi
  subst hx
  cases op with
  | nextOp =>
    cases hnt with
    | inl hn =>
      subst hn
      refine ⟨⟨fn, [], line, col, cur, nulChar, some t, none⟩, ?_, ?_⟩
      · dsimp only [stepOp]
        unfold nextT
        rw [readTok_at_eof ⟨fn, [], line, col, cur, nulChar, ct, none⟩ rfl rfl, ← htok]
      · exact ⟨rfl, rfl, Or.inl rfl, htok⟩
    | inr hn =>
      subst hn
      refine ⟨⟨fn, [], line, col, cur, nulChar, some t, none⟩, rfl, ?_⟩
      exact ⟨rfl, rfl, Or.inl rfl, htok⟩
  | peekOp =>
    cases hnt with
    | inl hn =>
      subst hn
      refine ⟨⟨fn, [], line, col, cur, nulChar, ct, some t⟩, ?_, ?_⟩
      · dsimp only [stepOp]
        unfold peekT
        rw [readTok_at_eof ⟨fn, [], line, col, cur, nulChar, ct, none⟩ rfl rfl, ← htok]
      · exact ⟨rfl, rfl, Or.inr rfl, htok⟩
    | inr hn =>
      subst hn
      refine ⟨⟨fn, [], line, col, cur, nulChar, ct, some t⟩, rfl, ?_⟩
      exact ⟨rfl, rfl, Or.inr rfl, htok⟩

lemma runOps_eof : ∀ (ops : List LexOp) (s : LexState) (t : Token), atEOF s t →
    runOps ops s = List.replicate ops.length (.ok t) := by
  intro ops
  induction ops with
  | nil => intro s t _; rfl
  | cons op rest ih =>
    intro s t h
    obtain ⟨s₂, hstep, h₂⟩ := step_preserves_eof op s t h
    show (stepOp op s).1 :: runOps rest (stepOp op s).2 = _
    rw [hstep]
    show Except.ok t :: runOps rest s₂ = _
    rw [ih s₂ t h₂, List.length_cons, List.replicate_succ]

lemma first_eof_atEOF (s : LexState) (t : Token) (s' : LexState)
    (hwf : wfCache s)
    (h : nextT s = (.ok t, s') ∨ peekT s = (.ok t, s'))
    (ht : t.typ = .EOF) : atEOF s' t := by
  cases h with
  | inl h =>
    unfold nextT at h
    cases hn : s.nxttok with
    | some tk =>
      rw [hn] at h
      injection h with h1 h2
      injection h1 with h1
      obtain ⟨hi, hx, he⟩ := hwf tk hn (by rw [h1]; exact ht)
      subst h2
      refine ⟨hi, hx, Or.inl rfl, ?_⟩
      rw [← h1]
      exact he
    | none =>
      rw [hn] at h
      cases hr : readTokP s with
      | ok t' s₂ =>
        rw [hr] at h
        injection h with h1 h2
        injection h1 with h1
        obtain ⟨hi, hx, hnx, he⟩ :=
          readTok_eof_state s t' s₂ hr (by rw [h1]; exact ht)
        subst h2
        refine ⟨hi, hx, Or.inl ?_, ?_⟩
        · show s₂.nxttok = none
          rw [hnx]
          exact hn
        · rw [← h1]
          exact he
      | tokErr t' e s₂ =>
        rw [hr] at h
        injection h with h1 h2
        exact absurd h1 (by simp)
      | err e s₂ =>
        rw [hr] at h
        injection h with h1 h2
        exact absurd h1 (by simp)
  | inr h =>
    unfold peekT at h
    cases hn : s.nxttok with
    | some tk =>
      rw [hn] at h
      injection h with h1 h2
      injection h1 with h1
      obtain ⟨hi, hx, he⟩ := hwf tk hn (by rw [h1]; exact ht)
      subst h2
      refine ⟨hi, hx, Or.inr ?_, ?_⟩
      · rw [hn, h1]
      · rw [← h1]
        exact he
    | none =>
      rw [hn] at h
      cases hr : readTokP s with
      | ok t' s₂ =>
        rw [hr] at h
        injection h with h1 h2
        injection h1 with h1
        obtain ⟨hi, hx, hnx, he⟩ :=
          readTok_eof_state s t' s₂ hr (by rw [h1]; exact ht)
        subst h2
        refine ⟨hi, hx, Or.inr ?_, ?_⟩
        · show some t' = some t
          rw [h1]
        · rw [← h1]
          exact he
      | tokErr t' e s₂ =>
        rw [hr] at h
        injection h with h1 h2
        exact absurd h1 (by simp)
      | err e s₂ =>
        rw [hr] at h
        injection h with h1 h2
        exact absurd h1 (by simp)

/-- Claim C7 (confirmed): once Next or Peek has returned an EOF token `t`
(from any state whose token buffer satisfies the reachable-state cache
invariant `wfCache`), every subsequent sequence of Next/Peek calls keeps
returning exactly `t` — the same token value, hence the same line and the
same column: EOF is terminal and idempotent. -/
theorem eof_terminal_idempotent (s : LexState) (t : Token) (s' : LexState)
    (hwf : wfCache s)
    (h : nextT s = (.ok t, s') ∨ peekT s = (.ok t, s'))
    (ht : t.typ = .EOF) :
    ∀ ops : List LexOp, runOps ops s' = List.replicate ops.length (.ok t) :=
  fun ops => runOps_eof ops s' t (first_eof_atEOF s t s' hwf h ht)

/-- Witness: on empty input the first Next yields EOF at line 1, column 0,
and a Peek-Next-Next sequence afterwards yields the same EOF token thrice. -/
theorem eof_terminal_idempotent_witness :
    runOps [LexOp.peekOp, LexOp.nextOp, LexOp.nextOp]
        ⟨"", [], 1, 1, nulChar, nulChar, some ⟨.EOF, "", 1, 0, "", 0⟩, none⟩
      = List.replicate 3 (.ok ⟨.EOF, "", 1, 0, "", 0⟩) :=
  eof_terminal_idempotent (initLex "" []) ⟨.EOF, "", 1, 0, "", 0⟩
    ⟨"", [], 1, 1, nulChar, nulChar, some ⟨.EOF, "", 1, 0, "", 0⟩, none⟩
    (fun tk hk _ => by exact absurd hk (by simp [initLex]))
    (Or.inl rfl) rfl
    [LexOp.peekOp, LexOp.nextOp, LexOp.nextOp]

/-- The runes the lexer has not yet consumed: the cached lookahead rune,
if any, followed by the unread input. -/
def effInput (s : LexState) : List Char :=
  if s.nxtrune = nulChar then s.input else s.nxtrune :: s.input

/-- Specification-side position reckoning: the 1-based line and column —
counted in runes, a newline starting a fresh line at column 1 — of the
first non-whitespace rune of the list, starting from position
(line, col). -/
def posOfFirst : List Char → Nat → Nat → Option (Nat × Nat)
  | [], _, _ => none
  | c :: cs, line, col =>
    if isSpace c then
      if c = newlineChar then posOfFirst cs (line + 1) 1
      else posOfFirst cs line (col + 1)
    else some (line, col)

/-- The token a readTok call hands to the caller, if any (the ILLEGAL
token is returned alongside its error; the strconv failure returns none). -/
def yieldedTok : ReadRes → Option Token
  | .ok t _ => some t
  | .tokErr t _ _ => some t
  | .err _ _ => none

lemma skipSpaceCore_true_pos (fn : String) (ct nt : Option Token) :
    ∀ inp line col cur s₁, nulChar ∉ inp →
      skipSpaceCore fn ct nt inp line col cur = (true, s₁) →
      posOfFirst inp line col = some (s₁.line, s₁.col) ∧
        isSpace s₁.nxtrune = false ∧ s₁.nxtrune ≠ nulChar := by
  intro inp
  induction inp with
  | nil =>
    intro line col cur s₁ hnul h
    simp [skipSpaceCore] at h
  | cons c cs ih =>
    intro line col cur s₁ hnul h
    simp only [skipSpaceCore] at h
    by_cases hs : isSpace c
    · by_cases hnl : c = newlineChar
      · rw [if_pos hs, if_pos hnl] at h
        have := ih (line + 1) 1 c s₁ (fun hm => hnul (List.mem_cons_of_mem c hm)) h
        rw [posOfFirst, if_pos hs, if_pos hnl]
        exact this
      · rw [if_pos hs, if_neg hnl] at h
        have := ih line (col + 1) c s₁ (fun hm => hnul (List.mem_cons_of_mem c hm)) h
        rw [posOfFirst, if_pos hs, if_neg hnl]
        exact this
    · rw [if_neg hs] at h
      injection h with _ h2
      subst h2
      refine ⟨?_, ?_, ?_⟩
      · rw [posOfFirst, if_neg hs]
      · simpa using hs
      · intro hc
        exact hnul (by rw [← hc]; exact List.mem_cons_self c cs)

lemma skipSpaceP_true_pos (s : LexState) (s₁ : LexState)
    (hnul : nulChar ∉ effInput s)
    (h : skipSpaceP s = (true, s₁)) :
    posOfFirst (effInput s) s.line s.col = some (s₁.line, s₁.col) ∧
      isSpace s₁.nxtrune = false ∧ s₁.nxtrune ≠ nulChar := by
  unfold skipSpaceP at h
  unfold effInput at hnul ⊢
  by_cases h0 : s.nxtrune = nulChar
  · rw [if_pos h0] at h hnul ⊢
    exact skipSpaceCore_true_pos _ _ _ _ _ _ _ _ hnul h
  · rw [if_neg h0] at h hnul ⊢
    by_cases hs : isSpace s.nxtrune
    · rw [if_neg (by simpa using hs)] at h
      by_cases hnl : s.nxtrune = newlineChar
      · rw [if_pos hnl] at h
        rw [posOfFirst, if_pos hs, if_pos hnl]
        exact skipSpaceCore_true_pos _ _ _ _ _ _ _ _
          (fun hm => hnul (List.mem_cons_of_mem _ hm)) h
      · rw [if_neg hnl] at h
        rw [posOfFirst, if_pos hs, if_neg hnl]
        exact skipSpaceCore_true_pos _ _ _ _ _ _ _ _
          (fun hm => hnul (List.mem_cons_of_mem _ hm)) h
    · rw [if_pos (by simpa using hs)] at h
      injection h with _ h2
      subst h2
      refine ⟨?_, by simpa using hs, h0⟩
      rw [posOfFirst, if_neg hs]

lemma scanCore_line (p : Char → Bool) (hp : p newlineChar = false)
    (fn : String) (ct nt : Option Token) :
    ∀ inp line col, ((scanCore p fn ct nt inp line col).2).line = line := by
  intro inp
  induction inp with
  | nil => intro line col; rfl
  | cons c cs ih =>
    intro line col
    simp only [scanCore]
    by_cases hc : p c
    · have hcn : ¬ c = newlineChar := by
        intro he
        rw [he, hp] at hc
        exact absurd hc (by simp)
      rw [if_pos hc, if_neg hcn]
      exact ih line (col + 1)
    · rw [if_neg hc]

lemma readRune_cached (s : LexState) (hc0 : s.nxtrune ≠ nulChar)
    (hnl : s.nxtrune ≠ newlineChar) :
    readRuneP s = (some s.nxtrune,
      { s with currune := s.nxtrune, nxtrune := nulChar, col := s.col + 1 }) := by
  unfold readRuneP advancePos
  rw [if_pos hc0]
  dsimp only
  rw [if_neg hnl]

lemma isSpace_newline : isSpace newlineChar = true := by decide

/-- Claim C8 as amended (corrected): for every lexer state whose pending
runes contain no U+0000 — the sentinel collision that silently drops a
rune — every token readTok yields carries the line and 1-based rune
column of the first rune of its lexeme, computed by the independent
position reckoning `posOfFirst`; and lexing "=+-*/!<>" yields exactly
ASSIGN, ADD, SUB, MUL, DIV, NOT, LT, GT at columns 1 through 8, with the
final EOF token also at column 8. -/
theorem token_positions_first_rune :
    (∀ s t, nulChar ∉ effInput s → yieldedTok (readTokP s) = some t →
        t.typ ≠ .EOF →
        posOfFirst (effInput s) s.line s.col = some (t.line, t.col))
    ∧ (lexN 9 (initLex "" "=+-*/!<>".data)).map
          (fun r => r.map (fun t => (t.typ, t.col)))
        = [.ok (.ASSIGN, 1), .ok (.ADD, 2), .ok (.SUB, 3), .ok (.MUL, 4),
           .ok (.DIV, 5), .ok (.NOT, 6), .ok (.LT, 7), .ok (.GT, 8),
           .ok (.EOF, 8)] := by
  constructor
  · intro s t hnul hy ht
    unfold readTokP at hy
    split at hy
    · rename_i s₁ heq
      dsimp only [yieldedTok] at hy
      injection hy with hk
      refine absurd ?_ ht
      rw [← hk]
      rfl
    · rename_i s₁ heq
      obtain ⟨hpos, hsp, hc0⟩ := skipSpaceP_true_pos s s₁ hnul heq
      rw [hpos]
      have hnl : s₁.nxtrune ≠ newlineChar := by
        intro he
        rw [he, isSpace_newline] at hsp
        exact Bool.noConfusion hsp
      split at hy
      · rename_i s₂ heq2
        obtain ⟨_, _, hx⟩ := readRuneP_none s₁ s₂ heq2
        exact absurd hx hc0
      · rename_i r s₂ heq2
        have hr' := readRune_cached s₁ hc0 hnl
        rw [heq2] at hr'
        injection hr' with hr1 hr2
        injection hr1 with hr1
        subst hr1
        subst hr2
        split at hy
        · rename_i tt hsr
          dsimp only [yieldedTok] at hy
          injection hy with hmk
          rw [← hmk]
          rfl
        · rename_i hsr
          by_cases hre : s₁.nxtrune = '='
          · rw [if_pos hre] at hy
            dsimp only at hy
            by_cases hp2 : (peakRuneP { s₁ with currune := s₁.nxtrune, nxtrune := nulChar, col := s₁.col + 1 }).1.getD nulChar = '='
            · rw [if_pos hp2] at hy
              dsimp only [yieldedTok] at hy
              injection hy with hmk
              rw [← hmk]
              cases hin : s₁.input <;> rfl
            · rw [if_neg hp2] at hy
              dsimp only [yieldedTok] at hy
              injection hy with hmk
              rw [← hmk]
              cases hin : s₁.input <;> rfl
          · rw [if_neg hre] at hy
            by_cases hrb : s₁.nxtrune = '!'
            · rw [if_pos hrb] at hy
              dsimp only at hy
              by_cases hp2 : (peakRuneP { s₁ with currune := s₁.nxtrune, nxtrune := nulChar, col := s₁.col + 1 }).1.getD nulChar = '='
              · rw [if_pos hp2] at hy
                dsimp only [yieldedTok] at hy
                injection hy with hmk
                rw [← hmk]
                cases hin : s₁.input <;> rfl
              · rw [if_neg hp2] at hy
                dsimp only [yieldedTok] at hy
                injection hy with hmk
                rw [← hmk]
                cases hin : s₁.input <;> rfl
            · rw [if_neg hrb] at hy
              by_cases hl : isLetter s₁.nxtrune
              · rw [if_pos hl] at hy
                unfold readIdentTokP at hy
                dsimp only [yieldedTok] at hy
                injection hy with hmk
                have hline : ((scanWhileP (fun c => isLetter c || isDigit c) { s₁ with currune := s₁.nxtrune, nxtrune := nulChar, col := s₁.col + 1 }).2).line = s₁.line := by
                  unfold scanWhileP
                  rw [if_pos rfl]
                  exact scanCore_line _ (by decide) _ _ _ _ _ _
                rw [← hmk]
                dsimp only
                rw [hline]
                rfl
              · rw [if_neg hl] at hy
                by_cases hd : isDigit s₁.nxtrune
                · rw [if_pos hd] at hy
                  unfold readIntTokP at hy
                  dsimp only at hy
                  split at hy
                  · dsimp only [yieldedTok] at hy
                    exact Option.noConfusion hy
                  · dsimp only [yieldedTok] at hy
                    injection hy with hmk
                    have hline : ((scanWhileP isDigit { s₁ with currune := s₁.nxtrune, nxtrune := nulChar, col := s₁.col + 1 }).2).line = s₁.line := by
                      unfold scanWhileP
                      rw [if_pos rfl]
                      exact scanCore_line _ (by decide) _ _ _ _ _ _
                    rw [← hmk]
                    dsimp only
                    rw [hline]
                    rfl
                · rw [if_neg hd] at hy
                  dsimp only [yieldedTok] at hy
                  injection hy with hmk
                  rw [← hmk]
                  rfl
  · rfl

/-- Counterexample to claim C8 as stated: on input U+0000 followed by "x",
the lexer yields the IDENT token "x" with recorded column 1, although the
rune x is the second rune of line 1 — rune-counted column 2 (its 0-based
index in the line is 1).  The swallowed NUL rune advanced neither the
column counter nor produced a token. -/
theorem token_position_wrong_after_nul :
    yieldedTok (readTokP (initLex "" [nulChar, 'x']))
        = some ⟨.IDENT, "", 1, 1, "x", 0⟩
    ∧ [nulChar, 'x'].indexOf 'x' + 1 = 2
    ∧ (Token.col ⟨.IDENT, "", 1, 1, "x", 0⟩) ≠ 2 := by
  refine ⟨rfl, by decide, by decide⟩

/-- Witness instantiating the general position law at input "x". -/
theorem token_positions_first_rune_witness :
    posOfFirst (effInput (initLex "" ['x'])) 1 1 = some (1, 1) :=
  token_positions_first_rune.1 (initLex "" ['x']) ⟨.IDENT, "", 1, 1, "x", 0⟩
    (by decide) rfl (by decide)
